import Mathlib

/-!
# Verification of the runtime formatting engine (`src/pkg/runtime/print.c`)

A shallow embedding of the minimal, allocation-free debug formatting engine:
the value converters (`runtime·printuint`, `runtime·printint`,
`runtime·printhex`, `runtime·printfloat`, `runtime·printstring`) and the
`printf` format driver that walks a format string and an untyped argument
buffer.  Output is modelled as a `List Nat` of byte values; memory is a
function from byte addresses to byte values.
-/

namespace PrintC

/-- Byte values of a string literal, for writing expected outputs. -/
def asBytes (s : String) : List Nat := s.toList.map Char.toNat

/-- The digit-producing loop of `runtime·printuint`:
`for(i=nelem(buf)-1; i>0; i--) { buf[i] = v%10 + '0'; if(v < 10) break; v = v/10; }`
Digits are built back-to-front in a 100-byte buffer by repeated
`% 10` / `/ 10`, breaking as soon as the remaining value is below 10 (so
value 0 renders as one `0`).  The loop index runs from 99 down to 1, so it
performs at most 99 iterations; the fuel argument models that bound. -/
def printuintFuel : Nat → Nat → List Nat
  | _, 0 => []
  | v, f + 1 =>
    if v < 10 then [v % 10 + 48]
    else printuintFuel (v / 10) f ++ [v % 10 + 48]

/-- `runtime·printuint`: render a `uint64` as decimal digits.  Every
`uint64` needs at most 20 of the 99 available digit slots. -/
def printuint (v : Nat) : List Nat := printuintFuel v 99

/-- Two's-complement wrap of an integer into the `int64` range, modelling
the overflow of `v = -v` at the minimum representable value. -/
def int64wrap (x : Int) : Int := (x + 2 ^ 63) % 2 ^ 64 - 2 ^ 63

/-- Reinterpretation of an `int64` value as a `uint64` (the implicit
conversion when `runtime·printint`'s `int64` argument is passed to
`runtime·printuint(uint64)`). -/
def toUint64 (x : Int) : Nat := (x % 2 ^ 64).toNat

/-- `runtime·printint`: if negative, write `-`, negate (in `int64`
arithmetic, wrapping at the minimum value), then defer to the unsigned
converter (converting to `uint64`). -/
def printint (v : Int) : List Nat :=
  if v < 0 then 45 :: printuint (toUint64 (int64wrap (-v)))
  else printuint (toUint64 v)

/-- The fixed digit alphabet `"0123456789abcdef"` of `runtime·printhex`,
as byte values indexed by digit. -/
def hexdig (n : Nat) : Nat := if n < 10 then n + 48 else n - 10 + 97

/-- The digit-producing loop of `runtime·printhex`:
`for(; v>0; v/=16) buf[--i] = dig[v%16];` — digits are prepended, so the
most significant digit ends up first.  Empty for value 0.  The 100-byte
buffer leaves room for at most 98 digits before the `0x` prefix; the fuel
argument models that bound (a `uint64` needs at most 16). -/
def hexLoopFuel : Nat → Nat → List Nat
  | _, 0 => []
  | v, f + 1 =>
    if v = 0 then [] else hexLoopFuel (v / 16) f ++ [hexdig (v % 16)]

/-- `runtime·printhex`: hex digits built back-to-front; if no digit was
produced (`i == nelem(buf)`, value 0) a single `0` digit is pushed; then
`x` and `0` are pushed in front. -/
def printhex (v : Nat) : List Nat :=
  let ds := hexLoopFuel v 98
  48 :: 120 :: (if ds = [] then [48] else ds)

/-- Parse a byte list as a base-10 number (each byte an ASCII digit). -/
def decimalParse (l : List Nat) : Nat :=
  l.foldl (fun a b => a * 10 + (b - 48)) 0

/-- A byte is an ASCII lowercase hex digit (`0`-`9` or `a`-`f`). -/
def isHexDigitByte (b : Nat) : Prop :=
  (48 ≤ b ∧ b ≤ 57) ∨ (97 ≤ b ∧ b ≤ 102)

instance (b : Nat) : Decidable (isHexDigitByte b) := by
  unfold isHexDigitByte; infer_instance

lemma printuintFuel_ne_nil (v f : Nat) (hf : f ≠ 0) : printuintFuel v f ≠ [] := by
  match f with
  | 0 => exact absurd rfl hf
  | f + 1 =>
    unfold printuintFuel
    split <;> simp

lemma decimalParse_append_digit (l : List Nat) (b : Nat) :
    decimalParse (l ++ [b]) = decimalParse l * 10 + (b - 48) := by
  simp [decimalParse, List.foldl_append]

lemma decimalParse_printuintFuel (f : Nat) :
    ∀ v : Nat, v < 10 ^ f → decimalParse (printuintFuel v f) = v := by
  induction f with
  | zero =>
    intro v hv
    interval_cases v
    rfl
  | succ f ih =>
    intro v hv
    unfold printuintFuel
    by_cases h : v < 10
    · simp only [if_pos h, decimalParse, List.foldl]
      omega
    · rw [if_neg h, decimalParse_append_digit, ih (v / 10) (by
        rw [Nat.div_lt_iff_lt_mul (by omega : 0 < 10)]
        calc v < 10 ^ (f + 1) := hv
          _ = 10 ^ f * 10 := by ring)]
      omega

lemma printuintFuel_head_ne_zero (f : Nat) :
    ∀ v : Nat, v ≠ 0 → v < 10 ^ f → (printuintFuel v f).head? ≠ some 48 := by
  induction f with
  | zero => intro v hv hlt; omega
  | succ f ih =>
    intro v hv hlt
    unfold printuintFuel
    by_cases h : v < 10
    · simp only [if_pos h, List.head?]
      intro hc
      have : v % 10 + 48 = 48 := by injection hc
      omega
    · rw [if_neg h]
      have hf : f ≠ 0 := by
        intro h0; subst h0; simp at hlt; omega
      rw [List.head?_append_of_ne_nil _ (printuintFuel_ne_nil (v / 10) f hf)]
      refine ih (v / 10) (by omega) ?_
      rw [Nat.div_lt_iff_lt_mul (by omega : 0 < 10)]
      calc v < 10 ^ (f + 1) := hlt
        _ = 10 ^ f * 10 := by ring

lemma uint64_lt_pow99 {v : Nat} (h : v < 2 ^ 64) : v < 10 ^ 99 := by
  calc v < 2 ^ 64 := h
    _ < 10 ^ 99 := by norm_num

lemma hexdig_isHexDigitByte (n : Nat) (h : n < 16) : isHexDigitByte (hexdig n) := by
  unfold hexdig isHexDigitByte
  split <;> omega

lemma hexdig_eq_48_iff (n : Nat) (h : n < 16) : hexdig n = 48 ↔ n = 0 := by
  unfold hexdig
  split <;> omega

lemma hexLoopFuel_mem_isHexDigitByte (f : Nat) :
    ∀ v b : Nat, b ∈ hexLoopFuel v f → isHexDigitByte b := by
  induction f with
  | zero => intro v b hb; simp [hexLoopFuel] at hb
  | succ f ih =>
    intro v b hb
    unfold hexLoopFuel at hb
    by_cases h : v = 0
    · simp [h] at hb
    · rw [if_neg h, List.mem_append] at hb
      rcases hb with hb | hb
      · exact ih _ _ hb
      · simp at hb
        subst hb
        exact hexdig_isHexDigitByte _ (Nat.mod_lt _ (by omega))

lemma hexLoopFuel_ne_nil (v f : Nat) (hv : v ≠ 0) (hf : f ≠ 0) :
    hexLoopFuel v f ≠ [] := by
  match f with
  | 0 => exact absurd rfl hf
  | f + 1 =>
    unfold hexLoopFuel
    rw [if_neg hv]
    simp

lemma hexLoopFuel_head_ne_zero (f : Nat) :
    ∀ v : Nat, v ≠ 0 → v < 16 ^ f → (hexLoopFuel v f).head? ≠ some 48 := by
  induction f with
  | zero => intro v hv hlt; omega
  | succ f ih =>
    intro v hv hlt
    unfold hexLoopFuel
    rw [if_neg hv]
    by_cases h : v / 16 = 0
    · rw [h]
      have hvlt : v < 16 := by omega
      match f with
      | 0 =>
        simp only [hexLoopFuel, List.nil_append, List.head?]
        rw [Nat.mod_eq_of_lt hvlt]
        intro hc
        have := (hexdig_eq_48_iff v hvlt).mp (by injection hc)
        omega
      | f + 1 =>
        simp only [hexLoopFuel, if_pos rfl, List.nil_append, List.head?]
        rw [Nat.mod_eq_of_lt hvlt]
        intro hc
        have := (hexdig_eq_48_iff v hvlt).mp (by injection hc)
        omega
    · rw [List.head?_append_of_ne_nil _
        (hexLoopFuel_ne_nil (v / 16) f h (by
          intro h0; subst h0; simp at hlt; omega))]
      refine ih (v / 16) h ?_
      rw [Nat.div_lt_iff_lt_mul (by omega : 0 < 16)]
      calc v < 16 ^ (f + 1) := hlt
        _ = 16 ^ f * 16 := by ring

lemma uint64_lt_pow16_98 {v : Nat} (h : v < 2 ^ 64) : v < 16 ^ 98 := by
  calc v < 2 ^ 64 := h
    _ < 16 ^ 98 := by norm_num

/-- **C4.** For every unsigned 64-bit integer `v`, converting `v` to decimal
with `runtime·printuint` and parsing the emitted bytes back as base 10
yields `v` again; the output has no leading zero digit (its first byte is
not `'0'` unless `v = 0`); and `v = 0` renders as exactly the single byte
`"0"`. -/
theorem printuint_decimal_roundtrip (v : Nat) (h : v < 2 ^ 64) :
    decimalParse (printuint v) = v ∧
    (v ≠ 0 → (printuint v).head? ≠ some 48) ∧
    printuint 0 = [48] := by
  refine ⟨?_, ?_, rfl⟩
  · exact decimalParse_printuintFuel 99 v (uint64_lt_pow99 h)
  · intro hv
    exact printuintFuel_head_ne_zero 99 v hv (uint64_lt_pow99 h)

/-- Witness for C4 at `v = 255`. -/
theorem printuint_decimal_roundtrip_witness :
    (255 : Nat) < 2 ^ 64 ∧
    (decimalParse (printuint 255) = 255 ∧
      ((255 : Nat) ≠ 0 → (printuint 255).head? ≠ some 48) ∧
      printuint 0 = [48]) :=
  ⟨by decide, printuint_decimal_roundtrip 255 (by decide)⟩

/-- **C5.** For every signed 64-bit integer `v` other than the minimum
representable value, `runtime·printint` emits a leading `-` iff `v < 0`,
followed by exactly `runtime·printuint`'s output for `|v|`. -/
theorem printint_sign_and_magnitude (v : Int)
    (h1 : -(2 ^ 63) ≤ v) (h2 : v < 2 ^ 63) (h3 : v ≠ -(2 ^ 63)) :
    printint v = (if v < 0 then [45] else []) ++ printuint v.natAbs := by
  unfold printint
  by_cases hv : v < 0
  · rw [if_pos hv, if_pos hv]
    have hu : toUint64 (int64wrap (-v)) = v.natAbs := by
      unfold toUint64 int64wrap
      omega
    rw [hu]
    rfl
  · rw [if_neg hv, if_neg hv]
    have hu : toUint64 v = v.natAbs := by
      unfold toUint64
      omega
    rw [hu, List.nil_append]

/-- Witness for C5 at `v = -5`. -/
theorem printint_sign_and_magnitude_witness :
    (-(2 ^ 63) ≤ (-5 : Int) ∧ (-5 : Int) < 2 ^ 63 ∧ (-5 : Int) ≠ -(2 ^ 63)) ∧
    printint (-5) = (if (-5 : Int) < 0 then [45] else []) ++ printuint (-5 : Int).natAbs :=
  ⟨⟨by decide, by decide, by decide⟩,
    printint_sign_and_magnitude (-5) (by decide) (by decide) (by decide)⟩

/-- **C6.** For every unsigned 64-bit integer `v`, `runtime·printhex`'s
output is the two bytes `"0x"` followed by a nonempty run of lowercase hex
digit bytes with no leading zero digit (unless `v = 0`), and `v = 0`
renders as exactly `"0x0"`. -/
theorem printhex_shape (v : Nat) (h : v < 2 ^ 64) :
    ((printhex v).take 2 = asBytes "0x" ∧
      (printhex v).drop 2 ≠ [] ∧
      (∀ b ∈ (printhex v).drop 2, isHexDigitByte b) ∧
      (v ≠ 0 → ((printhex v).drop 2).head? ≠ some 48)) ∧
    printhex 0 = asBytes "0x0" := by
  have hpe : printhex v =
      48 :: 120 :: (if hexLoopFuel v 98 = [] then [48] else hexLoopFuel v 98) := rfl
  refine ⟨⟨rfl, ?_, ?_, ?_⟩, rfl⟩
  · rw [hpe]
    split
    · simp
    · simpa using by assumption
  · intro b hb
    rw [hpe] at hb
    simp only [List.drop] at hb
    by_cases hds : hexLoopFuel v 98 = []
    · rw [if_pos hds] at hb
      simp at hb
      subst hb
      left; omega
    · rw [if_neg hds] at hb
      exact hexLoopFuel_mem_isHexDigitByte 98 v b hb
  · intro hv
    rw [hpe]
    simp only [List.drop]
    rw [if_neg (hexLoopFuel_ne_nil v 98 hv (by omega))]
    exact hexLoopFuel_head_ne_zero 98 v hv (uint64_lt_pow16_98 h)

/-- Witness for C6 at `v = 255`. -/
theorem printhex_shape_witness :
    (255 : Nat) < 2 ^ 64 ∧
    (((printhex 255).take 2 = asBytes "0x" ∧
      (printhex 255).drop 2 ≠ [] ∧
      (∀ b ∈ (printhex 255).drop 2, isHexDigitByte b) ∧
      ((255 : Nat) ≠ 0 → ((printhex 255).drop 2).head? ≠ some 48)) ∧
    printhex 0 = asBytes "0x0") :=
  ⟨by decide, printhex_shape 255 (by decide)⟩

/-- An IEEE 754 `float64` value as `runtime·printfloat` observes it: NaN,
a signed infinity, or a finite value given by its sign bit and its exact
magnitude (a nonnegative rational; every finite `float64` magnitude is a
dyadic rational, so this loses nothing).  Negative zero is
`finite true 0`; its IEEE comparisons `-0.0 != 0` and `-0.0 < 0` are both
false, which the rational magnitude 0 reproduces exactly. -/
inductive FloatRep where
  | nan : FloatRep
  | inf (neg : Bool) : FloatRep
  | finite (neg : Bool) (mag : Rat) : FloatRep

/-- The normalization loop `while(v >= 10) { e++; v /= 10; }`, with fuel
bounding the iteration count (a `float64` magnitude is below `10^309`, so
400 iterations always suffice; the claims proved below never enter the
loop). -/
def normDown : Rat → Int → Nat → Rat × Int
  | v, e, 0 => (v, e)
  | v, e, f + 1 => if v ≥ 10 then normDown (v / 10) (e + 1) f else (v, e)

/-- The normalization loop `while(v < 1) { e--; v *= 10; }`, with fuel. -/
def normUp : Rat → Int → Nat → Rat × Int
  | v, e, 0 => (v, e)
  | v, e, f + 1 => if v < 1 then normUp (v * 10) (e - 1) f else (v, e)

/-- The digit-extraction loop of `runtime·printfloat`:
`s = v; buf[i+2] = s+'0'; v -= s; v *= 10.` — the truncation `(int32)v`
is the floor, since `v ≥ 0` on every path reaching this loop. -/
def digitsLoop : Rat → Nat → List Nat
  | _, 0 => []
  | v, k + 1 => (v.floor.toNat + 48) :: digitsLoop ((v - (v.floor : Rat)) * 10) k

/-- `runtime·printfloat`: special-case NaN and both infinities, then
normalize a nonzero value to `[1, 10)` recording sign and decimal
exponent, round by adding `5 * 10^-7` (with a single carry step), extract
7 digits, and assemble `sign, d0, '.', d1..d6, 'e', expsign, 3 exponent
digits` — 14 bytes.  The hundreds digit of the exponent is written as
`e/100 + '0'` with no `% 10`, exactly as in the source. -/
def printfloat (x : FloatRep) : List Nat :=
  match x with
  | .nan => asBytes "NaN"
  | .inf _ => asBytes "+Inf"
  | .finite neg mag =>
    let val : Rat := if neg then -mag else mag
    let n : Nat := 7
    let ves : Rat × Int × Bool :=
      if val ≠ 0 then
        let vs : Rat × Bool := if val < 0 then (-val, true) else (val, false)
        let ve1 := normDown vs.1 0 400
        let ve2 := normUp ve1.1 ve1.2 400
        let h : Rat := 5 / 10 ^ n
        let v4 := ve2.1 + h
        if v4 ≥ 10 then (v4 / 10, ve2.2 + 1, vs.2) else (v4, ve2.2, vs.2)
      else (val, 0, false)
    match digitsLoop ves.1 n with
    | [] => []
    | d0 :: ds =>
      let sgn : Nat := if ves.2.2 then 45 else 43
      let ep : Nat × Int := if ves.2.1 < 0 then (45, -ves.2.1) else (43, ves.2.1)
      let en : Nat := ep.2.toNat
      sgn :: d0 :: 46 :: ds ++ [101, ep.1, en / 100 + 48, en / 10 % 10 + 48, en % 10 + 48]

/-- **C3.** `runtime·printfloat` renders NaN as exactly the 3 bytes
`"NaN"`, positive infinity as exactly the 4 bytes `"+Inf"`, and negative
infinity as the very same 4 bytes `"+Inf"` (no `-`): the source tests
`isInf(v, 0)` and `isInf(v, -1)` and writes `"+Inf"` in both branches. -/
theorem printfloat_specials :
    printfloat .nan = asBytes "NaN" ∧ (asBytes "NaN").length = 3 ∧
    printfloat (.inf false) = asBytes "+Inf" ∧ (asBytes "+Inf").length = 4 ∧
    printfloat (.inf true) = asBytes "+Inf" := by
  decide

lemma rat_floor_zero : (0 : Rat).floor = 0 := rfl

lemma digitsLoop_zero (k : Nat) : digitsLoop 0 k = List.replicate k 48 := by
  induction k with
  | zero => rfl
  | succ k ih =>
    unfold digitsLoop
    rw [rat_floor_zero]
    norm_num [ih]
    rw [List.replicate_succ]

lemma printfloat_finite_zero (b : Bool) :
    printfloat (.finite b 0) = asBytes "+0.000000e+000" := by
  have hval : (if b = true then -(0 : Rat) else 0) = 0 := by cases b <;> simp
  simp only [printfloat, hval]
  norm_num
  rw [digitsLoop_zero]
  decide

/-- **C2, counterexample.** Float conversion of `-0.0` (zero with the sign
bit set) does *not* render with a leading `-`: the source's tests `v != 0`
and `v < 0` are both false for negative zero (IEEE compares `-0.0` equal
to `0.0`), so the sign bit is never consulted. -/
theorem printfloat_negzero_counterexample :
    printfloat (.finite true 0) ≠ asBytes "-0.000000e+000" := by
  rw [printfloat_finite_zero true]
  decide

/-- **C2, amended.** Float conversion of `0.0` renders exactly
`"+0.000000e+000"`, and float conversion of `-0.0` renders the *same*
bytes, also with a leading `+` (not `-`): the sign bit of zero is ignored.
In both cases the exponent field is `"000"`. -/
theorem printfloat_zero (b : Bool) :
    printfloat (.finite b 0) = asBytes "+0.000000e+000" :=
  printfloat_finite_zero b

/-- Byte stored at address `a` (memory holds bytes). -/
def byteAt (mem : Nat → Nat) (a : Nat) : Nat := mem a % 256

/-- `runtime·printstring`: compare the length against the configured
maximum `maxstring` (an external `int32` global, modelled as a parameter);
an oversized length prints the 16-byte sentinel `"[invalid string]"`
without touching the pointer; a positive valid length prints exactly
`len` bytes starting at the pointer; otherwise nothing is written. -/
def printstring (mem : Nat → Nat) (maxstring : Int) (len : Int) (str : Nat) : List Nat :=
  if len > maxstring then asBytes "[invalid string]"
  else if len > 0 then (List.range len.toNat).map (fun i => byteAt mem (str + i))
  else []

/-- **C9.** For every length-prefixed string value `(len, str)` and a
nonnegative configured maximum: if `len` exceeds the maximum the printer
writes exactly the 16-byte sentinel `"[invalid string]"` and its output is
independent of the memory contents and of the pointer (it never
dereferences it); if `len = 0` it writes nothing; and if
`0 < len ≤ maximum` it writes exactly `len` bytes starting at `str`, with
no added terminator. -/
theorem printstring_cases (mem mem2 : Nat → Nat) (ms len : Int) (str str2 : Nat)
    (hms : 0 ≤ ms) :
    (len > ms → printstring mem ms len str = asBytes "[invalid string]" ∧
      (asBytes "[invalid string]").length = 16 ∧
      printstring mem ms len str = printstring mem2 ms len str2) ∧
    (len = 0 → printstring mem ms len str = []) ∧
    (0 < len → len ≤ ms →
      printstring mem ms len str =
        (List.range len.toNat).map (fun i => byteAt mem (str + i)) ∧
      (printstring mem ms len str).length = len.toNat) := by
  refine ⟨fun hgt => ?_, fun h0 => ?_, fun hpos hle => ?_⟩
  · have e1 : printstring mem ms len str = asBytes "[invalid string]" := by
      unfold printstring
      rw [if_pos hgt]
    have e2 : printstring mem2 ms len str2 = asBytes "[invalid string]" := by
      unfold printstring
      rw [if_pos hgt]
    exact ⟨e1, by decide, e1.trans e2.symm⟩
  · unfold printstring
    rw [if_neg (by omega), if_neg (by omega)]
  · have e : printstring mem ms len str =
        (List.range len.toNat).map (fun i => byteAt mem (str + i)) := by
      unfold printstring
      rw [if_neg (by omega), if_pos (by omega)]
    refine ⟨e, ?_⟩
    rw [e]
    simp

/-- Witness for C9: maximum 10, exercising the oversized (len 11), empty
(len 0) and valid (len 3) cases. -/
theorem printstring_cases_witness :
    (0 : Int) ≤ 10 ∧
    printstring (fun _ => 97) 10 11 0 = asBytes "[invalid string]" ∧
    printstring (fun _ => 97) 10 0 5 = [] ∧
    (printstring (fun _ => 97) 10 3 5).length = (3 : Int).toNat :=
  ⟨by decide,
    ((printstring_cases (fun _ => 97) (fun _ => 0) 10 11 0 1 (by decide)).1
      (by decide)).1,
    (printstring_cases (fun _ => 97) (fun _ => 0) 10 0 5 1 (by decide)).2.1 rfl,
    ((printstring_cases (fun _ => 97) (fun _ => 0) 10 3 5 1 (by decide)).2.2
      (by decide) (by decide)).2⟩

/-- Little-endian 32-bit read from the argument buffer, `*(uint32*)arg`. -/
def read4 (mem : Nat → Nat) (a : Nat) : Nat :=
  byteAt mem a + 256 * (byteAt mem (a + 1) + 256 * (byteAt mem (a + 2) + 256 * byteAt mem (a + 3)))

/-- Little-endian 64-bit read from the argument buffer, `*(uint64*)arg`. -/
def read8 (mem : Nat → Nat) (a : Nat) : Nat :=
  read4 mem a + 2 ^ 32 * read4 mem (a + 4)

/-- Pointer-sized read, `*(void**)arg`, for a platform with `ptrSize`-byte
pointers (4 or 8). -/
def readP (ptrSize : Nat) (mem : Nat → Nat) (a : Nat) : Nat :=
  if ptrSize = 8 then read8 mem a else read4 mem a

/-- Signed 32-bit read, `*(int32*)arg` (two's complement). -/
def int32at (mem : Nat → Nat) (a : Nat) : Int :=
  let b := read4 mem a
  if b < 2 ^ 31 then (b : Int) else (b : Int) - 2 ^ 32

/-- Signed 64-bit read, `*(int64*)arg` (two's complement). -/
def int64at (mem : Nat → Nat) (a : Nat) : Int :=
  let b := read8 mem a
  if b < 2 ^ 63 then (b : Int) else (b : Int) - 2 ^ 64

/-- The alignment adjustment of the format driver:
`if(sizeof(uintptr) == 8 && ((uint32)(uint64)arg)&4) arg += 4;` — on an
8-byte-pointer platform, advance the cursor by 4 when bit 2 of its address
is set (i.e. the address is ≡ 4..7 mod 8; a cursor kept 4-byte-aligned by
the strides hits this exactly when it is 4-byte- but not 8-byte-aligned). -/
def pad (ptrSize a : Nat) : Nat :=
  if ptrSize = 8 ∧ a / 4 % 2 = 1 then a + 4 else a

/-- `findnull` as used by `prints`: the bytes up to (not including) the
first null byte found by a forward scan.  The fuel bounds the scan at the
size of the address space. -/
def scanz (mem : Nat → Nat) (a : Nat) : Nat → List Nat
  | 0 => []
  | f + 1 => if byteAt mem a = 0 then [] else byteAt mem a :: scanz mem (a + 1) f

/-- `prints`: write a null-terminated string byte-for-byte. -/
def prints (mem : Nat → Nat) (a : Nat) : List Nat := scanz mem a (2 ^ 64)

/-- The `printf` driver of `print.c`.  It walks the format string;
non-`%` bytes are copied verbatim (the source batches literal runs into
single `write` calls, which emits the same byte sequence as this per-byte
model).  On `%` it reads the specifier, computes the padded argument
address and the next-argument address `narg` (initialized to `nil`, i.e.
address 0, and *left at `nil` for an unrecognized specifier*), dispatches
to the converter, and continues with `arg = narg`.

A trailing lone `%` makes the C code read the null terminator as the
specifier and then scan past the end of the string (undefined behavior);
the model stops there instead.  Claims never exercise that case.

For `%S` the `String` struct layout is Modelled from the spec: `runtime.h`
is not among this repository's sources; §3 describes the value as "a pair
(byte length, pointer to bytes)" and §4.1 gives its stride as "pointer
width + length field width", so the 4-byte length is read at offset 0, the
pointer at offset 4, and the stride is `4 + ptrSize`. -/
def printfRun (ptrSize : Nat) (mem : Nat → Nat) (maxstring : Int) : List Char → Nat → List Nat
  | [], _ => []
  | c :: rest, arg =>
    if c = '%' then
      match rest with
      | [] => []
      | spec :: rest2 =>
        let step : List Nat × Nat :=
          if spec = 'd' then (printint (int32at mem arg), arg + 4)
          else if spec = 'x' then (printhex (read4 mem arg), arg + 4)
          else if spec = 'D' then (printint (int64at mem (pad ptrSize arg)), pad ptrSize arg + 8)
          else if spec = 'X' then (printhex (read8 mem (pad ptrSize arg)), pad ptrSize arg + 8)
          else if spec = 'p' then (printhex (readP ptrSize mem (pad ptrSize arg)), pad ptrSize arg + ptrSize)
          else if spec = 's' then (prints mem (readP ptrSize mem (pad ptrSize arg)), pad ptrSize arg + ptrSize)
          else if spec = 'S' then
            (printstring mem maxstring (int32at mem (pad ptrSize arg))
              (readP ptrSize mem (pad ptrSize arg + 4)), pad ptrSize arg + (4 + ptrSize))
          else ([], 0)
        step.1 ++ printfRun ptrSize mem maxstring rest2 step.2
    else c.toNat :: printfRun ptrSize mem maxstring rest arg

/-- Memory for the C1 counterexample: the 32-bit value 7 lives at address
0 (the nil address) and the 32-bit value 9 at address 100. -/
def memC1 : Nat → Nat := fun a => if a = 0 then 7 else if a = 100 then 9 else 0

/-- **C1, counterexample.** With the argument cursor at address 100, the
format `"%!%d"` prints `"7"` — the value at address 0 — while `"%d"` alone
prints `"9"`, the value at the cursor: after the unrecognized specifier
`!`, the `%d` does *not* read from the position it would have read from
without it, because the driver leaves `narg` at `nil` and assigns
`arg = narg`. -/
theorem printf_unknown_specifier_counterexample :
    printfRun 8 memC1 256 ('%' :: '!' :: '%' :: 'd' :: []) 100 = asBytes "7" ∧
    printfRun 8 memC1 256 ('%' :: 'd' :: []) 100 = asBytes "9" ∧
    printfRun 8 memC1 256 ('%' :: '!' :: '%' :: 'd' :: []) 100 ≠
      printfRun 8 memC1 256 ('%' :: 'd' :: []) 100 := by
  refine ⟨by decide, by decide, ?_⟩
  decide

/-- **C1, amended.** When the driver encounters `%` followed by a
character that is not one of the recognized specifiers
(`d x D X p s S`), it emits zero bytes for that specifier and reads no
argument, but it *resets the argument cursor to the nil address* (0):
`narg` is initialized to `nil`, no case of the width switch sets it, and
the driver continues with `arg = narg`.  Subsequent specifiers therefore
read from addresses starting at 0 rather than from the positions they
would have read without the unrecognized specifier. -/
theorem printf_unknown_specifier (ptrSize : Nat) (mem : Nat → Nat) (ms : Int)
    (spec : Char) (rest : List Char) (arg : Nat)
    (h : spec ∉ (['d', 'x', 'D', 'X', 'p', 's', 'S'] : List Char)) :
    printfRun ptrSize mem ms ('%' :: spec :: rest) arg =
      printfRun ptrSize mem ms rest 0 := by
  simp only [List.mem_cons, List.not_mem_nil, or_false, not_or] at h
  obtain ⟨h1, h2, h3, h4, h5, h6, h7⟩ := h
  simp [printfRun, h1, h2, h3, h4, h5, h6, h7]

/-- Witness for the amended C1 at specifier `!`. -/
theorem printf_unknown_specifier_witness :
    ('!' ∉ (['d', 'x', 'D', 'X', 'p', 's', 'S'] : List Char)) ∧
    printfRun 8 (fun _ => 0) 256 ('%' :: '!' :: 'a' :: []) 52 =
      printfRun 8 (fun _ => 0) 256 ('a' :: []) 0 :=
  ⟨by decide, printf_unknown_specifier 8 (fun _ => 0) 256 '!' ('a' :: []) 52 (by decide)⟩

/-- **C7.** On a platform with 8-byte pointers, for the 64-bit specifiers
`%D` and `%X`: when the cursor address is 4-byte- but not 8-byte-aligned
(address ≡ 4 mod 8) the driver first advances the cursor by 4 bytes, then
reads the 8-byte value at the adjusted address and advances by a stride of
exactly 8 (so the next argument starts at `arg + 12`); when the cursor is
already 8-byte-aligned no padding is inserted and the next argument starts
at `arg + 8`. -/
theorem printf_64bit_alignment (mem : Nat → Nat) (ms : Int) (rest : List Char) (arg : Nat) :
    (arg % 8 = 4 →
      printfRun 8 mem ms ('%' :: 'D' :: rest) arg =
        printint (int64at mem (arg + 4)) ++ printfRun 8 mem ms rest (arg + 4 + 8) ∧
      printfRun 8 mem ms ('%' :: 'X' :: rest) arg =
        printhex (read8 mem (arg + 4)) ++ printfRun 8 mem ms rest (arg + 4 + 8)) ∧
    (arg % 8 = 0 →
      printfRun 8 mem ms ('%' :: 'D' :: rest) arg =
        printint (int64at mem arg) ++ printfRun 8 mem ms rest (arg + 8) ∧
      printfRun 8 mem ms ('%' :: 'X' :: rest) arg =
        printhex (read8 mem arg) ++ printfRun 8 mem ms rest (arg + 8)) := by
  have hD : printfRun 8 mem ms ('%' :: 'D' :: rest) arg =
      printint (int64at mem (pad 8 arg)) ++ printfRun 8 mem ms rest (pad 8 arg + 8) := rfl
  have hX : printfRun 8 mem ms ('%' :: 'X' :: rest) arg =
      printhex (read8 mem (pad 8 arg)) ++ printfRun 8 mem ms rest (pad 8 arg + 8) := rfl
  constructor
  · intro h4
    have hp : pad 8 arg = arg + 4 := by
      unfold pad
      rw [if_pos ⟨rfl, by omega⟩]
    rw [hD, hX, hp]
    exact ⟨rfl, rfl⟩
  · intro h0
    have hp : pad 8 arg = arg := by
      unfold pad
      rw [if_neg (by omega)]
    rw [hD, hX, hp]
    exact ⟨rfl, rfl⟩

/-- Witness for C7 at cursor addresses 4 (padded) and 0 (unpadded). -/
theorem printf_64bit_alignment_witness :
    ((4 : Nat) % 8 = 4 ∧ (0 : Nat) % 8 = 0) ∧
    printfRun 8 (fun _ => 0) 256 ('%' :: 'D' :: []) 4 =
      printint (int64at (fun _ => 0) (4 + 4)) ++ printfRun 8 (fun _ => 0) 256 [] (4 + 4 + 8) ∧
    printfRun 8 (fun _ => 0) 256 ('%' :: 'X' :: []) 0 =
      printhex (read8 (fun _ => 0) 0) ++ printfRun 8 (fun _ => 0) 256 [] (0 + 8) :=
  ⟨⟨by decide, by decide⟩,
    ((printf_64bit_alignment (fun _ => 0) 256 [] 4).1 (by decide)).1,
    ((printf_64bit_alignment (fun _ => 0) 256 [] 0).2 (by decide)).2⟩

/-- Memory for C8: the little-endian bytes of `(int32)-5`
(`fb ff ff ff`) at addresses 100-103, followed by the little-endian bytes
of `(uint32)255` (`ff 00 00 00`) at addresses 104-107. -/
def memC8 : Nat → Nat := fun a =>
  if a = 100 then 251
  else if a = 101 then 255
  else if a = 102 then 255
  else if a = 103 then 255
  else if a = 104 then 255
  else 0

/-- **C8.** For the format string `"%d-%x"` with the argument buffer
holding `(int32)-5` followed by `(uint32)255` at the cursor (here address
100, which is 4- but not 8-byte-aligned, so any alignment padding would be
visible), the output is exactly `"-5-0xff"`, on 8-byte- and 4-byte-pointer
platforms alike: each 32-bit specifier consumes 4 bytes with no padding,
and the literal `-` between the specifiers appears verbatim in textual
order. -/
theorem printf_d_x_literal_run :
    int32at memC8 100 = -5 ∧ read4 memC8 104 = 255 ∧
    printfRun 8 memC8 256 ('%' :: 'd' :: '-' :: '%' :: 'x' :: []) 100 = asBytes "-5-0xff" ∧
    printfRun 4 memC8 256 ('%' :: 'd' :: '-' :: '%' :: 'x' :: []) 100 = asBytes "-5-0xff" := by
  refine ⟨by decide, by decide, by decide, by decide⟩

/-- **C10.** `runtime·printint` at the minimum representable signed 64-bit
integer: the in-range negation `v = -v` wraps back to the minimum value,
whose reinterpretation as `uint64` is `2^63`, so the full output is exactly
`"-9223372036854775808"`, the canonical decimal rendering. -/
theorem printint_min_int64 :
    printint (-(2 ^ 63)) = asBytes "-9223372036854775808" := by decide

end PrintC
